import Mathlib

/-!
# Verification of the Event-Calendar extraction pipeline

A shallow embedding of the event-extraction and date-normalization pipeline
of the repository (files `another_suggestion.py`, `fetchers.py`,
`llm_parser.py`, `ical_generator.py` / `generate_ical.py`), together with
proofs and refutations of the frozen specification claims.

The heart of the embedding is an executable model of the Python regular
expression searches performed by `_parse_period_to_dates` and the list
processing loops of `fetch_events_from_api`.  The regular expressions are
hand-compiled into backtracking matchers that replicate Python `re.search`
semantics on the relevant patterns: leftmost match position wins, greedy
quantifiers try the longest repetition first, lazy quantifiers the shortest,
and alternatives are explored in preference order.  `\d` is modelled as the
ASCII digits (the sources only ever feed ASCII digits to these patterns) and
`\s` as the common whitespace characters including U+3000.
-/

namespace EventCalendar

/-- ASCII decimal digit test, model of `\d` (restricted to ASCII). -/
def isDigitCh (c : Char) : Bool := 48 ≤ c.toNat && c.toNat ≤ 57

/-- Numeric value of an ASCII digit character. -/
def digitVal (c : Char) : Nat := c.toNat - 48

/-- The date separator class `[. / -]` of `_parse_period_to_dates`. -/
def isDateSep (c : Char) : Bool := c = '.' || c = '/' || c = '-'

/-- The range separator class `[〜~\-～ーtoTO ]` of `_parse_period_to_dates`. -/
def isRangeSep (c : Char) : Bool :=
  c = '〜' || c = '~' || c = '-' || c = '～' || c = 'ー' ||
  c = 't' || c = 'o' || c = 'T' || c = 'O' || c = ' '

/-- Model of Python `\s` (the whitespace characters actually occurring in the
data: ASCII whitespace plus the ideographic space U+3000). -/
def isPySpace (c : Char) : Bool :=
  c = ' ' || c = '\t' || c = '\n' || c = '\r' ||
  c = Char.ofNat 11 || c = Char.ofNat 12 || c = Char.ofNat 0x3000

/-- One `(year, month, day)` group triple captured by a date sub-pattern. -/
structure DateG where
  y : Nat
  m : Nat
  d : Nat
deriving DecidableEq

/-- First alternative of an ordered nondeterministic choice that succeeds:
the backtracking combinator used by the hand-compiled matchers. -/
def firstSome {α : Type} {β : Type} : List α → (α → Option β) → Option β
  | [], _ => none
  | a :: as, f =>
    match f a with
    | some b => some b
    | none => firstSome as f

/-- `\d{4}`: exactly four digits, captured as their numeric value. -/
def take4Digits : List Char → Option (Nat × List Char)
  | a :: b :: c :: d :: rest =>
    if isDigitCh a && isDigitCh b && isDigitCh c && isDigitCh d then
      some ((((digitVal a) * 10 + digitVal b) * 10 + digitVal c) * 10 + digitVal d, rest)
    else none
  | _ => none

/-- `(\d{1,2})`, greedy: the two-digit reading is tried before the
one-digit reading.  Returns all viable captures in preference order. -/
def take12Digits : List Char → List (Nat × List Char)
  | a :: b :: rest =>
    if isDigitCh a then
      if isDigitCh b then
        [((digitVal a) * 10 + digitVal b, rest), (digitVal a, b :: rest)]
      else [(digitVal a, b :: rest)]
    else []
  | [a] => if isDigitCh a then [(digitVal a, [])] else []
  | [] => []

/-- `(\d{4})[. / -](\d{1,2})[. / -](\d{1,2})` anchored at the head of the input:
all full matches in Python preference order (greedy day first). -/
def dateAts (cs : List Char) : List (DateG × List Char) :=
  match take4Digits cs with
  | none => []
  | some (y, r1) =>
    match r1 with
    | [] => []
    | s1 :: r2 =>
      if isDateSep s1 then
        (take12Digits r2).flatMap (fun mp =>
          match mp.2 with
          | [] => []
          | s2 :: r3 =>
            if isDateSep s2 then
              (take12Digits r3).map (fun dp => (⟨y, mp.1, dp.1⟩, dp.2))
            else [])
      else []

/-- Length of the longest run of at most `k` characters matchable by `.`
(any character except a newline). -/
def dotRun : Nat → List Char → Nat
  | 0, _ => 0
  | _ + 1, [] => 0
  | k + 1, c :: rest => if c = '\n' then 0 else 1 + dotRun k rest

/-- Length of the longest run of at most `k` range-separator characters. -/
def sepRun : Nat → List Char → Nat
  | 0, _ => 0
  | _ + 1, [] => 0
  | k + 1, c :: rest => if isRangeSep c then 1 + sepRun k rest else 0

/-- `cs.drop j :: cs.drop (j-1) :: ... :: cs.drop 0`: the remainders after a
greedy bounded quantifier, longest consumption first. -/
def dropsDesc (cs : List Char) : Nat → List (List Char)
  | 0 => [cs]
  | j + 1 => cs.drop (j + 1) :: dropsDesc cs j

/-- Like `dropsDesc` but stopping at one consumed character (for `{1,k}`). -/
def dropsFrom1 (cs : List Char) : Nat → List (List Char)
  | 0 => []
  | j + 1 => cs.drop (j + 1) :: dropsFrom1 cs j

/-- Remainders for greedy `.{0,k}`, in Python preference order. -/
def dotDrops (k : Nat) (cs : List Char) : List (List Char) :=
  dropsDesc cs (dotRun k cs)

/-- Remainders for greedy `[〜~\-～ーtoTO ]{1,10}`, in preference order. -/
def sepDrops (cs : List Char) : List (List Char) :=
  dropsFrom1 cs (sepRun 10 cs)

/-- Remainders for lazy `.*?`, shortest consumption first (a `.` cannot
consume a newline). -/
def lazyDotRests : List Char → List (List Char)
  | [] => [[]]
  | c :: rest => (c :: rest) :: (if c = '\n' then [] else lazyDotRests rest)

/-- Pattern 1 of `_parse_period_to_dates`,
`(\d{4})[. / -](\d{1,2})[. / -](\d{1,2}).{0,10}[〜~\-～ーtoTO ]{1,10}(\d{4})[. / -](\d{1,2})[. / -](\d{1,2})`,
anchored at the head of the input. -/
def matchR1At (cs : List Char) : Option (DateG × DateG) :=
  firstSome (dateAts cs) (fun p1 =>
    firstSome (dotDrops 10 p1.2) (fun r2 =>
      firstSome (sepDrops r2) (fun r3 =>
        firstSome (dateAts r3) (fun p2 => some (p1.1, p2.1)))))

/-- `(\d{4})年\s*(\d{1,2})月\s*(\d{1,2})日` needs a literal marker after a
one-or-two digit group; greedy, so the two-digit reading is tried first. -/
def take12Lit (mark : Char) (cs : List Char) : Option (Nat × List Char) :=
  firstSome (take12Digits cs) (fun p =>
    match p.2 with
    | c :: r => if c = mark then some (p.1, r) else none
    | [] => none)

/-- Length of the leading whitespace run (`\s*`). -/
def wsLen : List Char → Nat
  | [] => 0
  | c :: rest => if isPySpace c then 1 + wsLen rest else 0

/-- `(\d{4})年\s*(\d{1,2})月\s*(\d{1,2})日` anchored at the head. -/
def jpDateAt (cs : List Char) : Option (DateG × List Char) :=
  match take4Digits cs with
  | none => none
  | some (y, r1) =>
    match r1 with
    | [] => none
    | c :: r2 =>
      if c = '年' then
        match take12Lit '月' (r2.drop (wsLen r2)) with
        | none => none
        | some (m, r3) =>
          match take12Lit '日' (r3.drop (wsLen r3)) with
          | none => none
          | some (d, r4) => some (⟨y, m, d⟩, r4)
      else none

/-- Pattern 2 of `_parse_period_to_dates`,
`(\d{4})年\s*(\d{1,2})月\s*(\d{1,2})日.*?(\d{4})年\s*(\d{1,2})月\s*(\d{1,2})日`,
anchored at the head of the input (`.*?` is lazy). -/
def matchR2At (cs : List Char) : Option (DateG × DateG) :=
  match jpDateAt cs with
  | none => none
  | some (g1, r1) =>
    firstSome (lazyDotRests r1) (fun r2 =>
      match jpDateAt r2 with
      | none => none
      | some (g2, _) => some (g1, g2))

/-- `re.search`: try anchored matches at positions `0, 1, 2, ...` and return
the first success. -/
def searchOpt {α : Type} (p : List Char → Option α) : List Char → Option α
  | [] => p []
  | c :: rest =>
    match p (c :: rest) with
    | some v => some v
    | none => searchOpt p rest

/-- `re.search` of pattern 1 (full range, ISO-like dialects). -/
def searchR1 (cs : List Char) : Option (DateG × DateG) := searchOpt matchR1At cs

/-- `re.search` of pattern 2 (full range, Japanese dialect). -/
def searchR2 (cs : List Char) : Option (DateG × DateG) := searchOpt matchR2At cs

/-- `re.search` of pattern 3 (single date, ISO-like dialects). -/
def searchR3 (cs : List Char) : Option DateG :=
  searchOpt (fun l => firstSome (dateAts l) (fun p => some p.1)) cs

/-- `re.search` of pattern 4 (single date, Japanese dialect). -/
def searchR4 (cs : List Char) : Option DateG :=
  searchOpt (fun l => (jpDateAt l).map Prod.fst) cs

/-- Zero-padded two-digit decimal rendering, model of `f"{int(m):02d}"`.
The matchers only produce values below 100 (at most two captured digits),
where the format is exactly these two decimal digits. -/
def pad2 (n : Nat) : List Char :=
  [Nat.digitChar (n / 10 % 10), Nat.digitChar (n % 10)]

/-- Zero-padded four-digit decimal rendering, model of `f"{int(y):04d}"`.
The matchers only produce values below 10000 (exactly four captured digits),
where the format is exactly these four decimal digits. -/
def pad4 (n : Nat) : List Char :=
  [Nat.digitChar (n / 1000 % 10), Nat.digitChar (n / 100 % 10),
   Nat.digitChar (n / 10 % 10), Nat.digitChar (n % 10)]

/-- The inner `norm` helper of `_parse_period_to_dates`:
`f"{int(y):04d}-{int(m):02d}-{int(d):02d}"`. -/
def norm (y m d : Nat) : String :=
  String.mk (pad4 y ++ '-' :: pad2 m ++ '-' :: pad2 d)

/-- `norm` applied to one captured group triple. -/
def normG (g : DateG) : String := norm g.y g.m g.d

/-- `_parse_period_to_dates` of `another_suggestion.py`: normalize a period
string to `(start_date, end_date)`, trying the four patterns in order;
`none` models the Python `None` result. -/
def parse_period_to_dates (period : String) : Option (String × String) :=
  match searchR1 period.data with
  | some (g1, g2) => some (normG g1, normG g2)
  | none =>
    match searchR2 period.data with
    | some (g1, g2) => some (normG g1, normG g2)
    | none =>
      match searchR3 period.data with
      | some g => some (normG g, normG g)
      | none =>
        match searchR4 period.data with
        | some g => some (normG g, normG g)
        | none => none

/-! ## Lexicographic order on strings

The specification states its invariants (`start_date <= end_date`) on the
ISO-8601 date strings, i.e. in the usual lexicographic byte order.  We spell
that order out as an executable function so the claims can be stated
directly over it. -/

/-- Lexicographic `≤` on character lists. -/
def strLeB : List Char → List Char → Bool
  | [], _ => true
  | _ :: _, [] => false
  | a :: as, b :: bs => if a < b then true else if a = b then strLeB as bs else false

/-- Lexicographic `≤` on strings (byte order; on zero-padded ISO-8601 dates
this coincides with chronological order). -/
def strLe (s t : String) : Bool := strLeB s.data t.data

/-- Lexicographic `<` on character lists. -/
def strLtB : List Char → List Char → Bool
  | [], [] => false
  | [], _ :: _ => true
  | _ :: _, [] => false
  | a :: as, b :: bs => if a < b then true else if a = b then strLtB as bs else false

/-! ## The candidate-processing loops of `fetch_events_from_api` -/

/-- One raw event candidate `{title, period}` as collected by
`fetch_events_from_api` (from JSON payloads and the DOM sweep). -/
structure RawCand where
  title : String
  period : String
deriving DecidableEq

/-- A normalized sale record `{name, start_date, end_date}` as written to
`sales.json` and consumed by the calendar emitter. -/
structure SaleRec where
  name : String
  start_date : String
  end_date : String
deriving DecidableEq

/-- The `(title, period)` key used by the deduplication loop. -/
def keyOf (e : RawCand) : String × String := (e.title, e.period)

/-- Membership of a key in the `seen` set (a Python `set` of pairs). -/
def keySeen (k : String × String) : List (String × String) → Bool
  | [] => false
  | k2 :: rest => k == k2 || keySeen k rest

/-- The deduplication loop of `fetch_events_from_api` (lines 224-231):
keep a candidate when its `(title, period)` key is unseen and both fields
are non-empty, adding the key to `seen` exactly when the candidate is kept. -/
def dedupCands : List RawCand → List (String × String) → List RawCand
  | [], _ => []
  | e :: rest, seen =>
    if !keySeen (keyOf e) seen && e.title ≠ "" && e.period ≠ "" then
      e :: dedupCands rest (keyOf e :: seen)
    else
      dedupCands rest seen

/-- `uniq`: the deduplicated candidate list, starting from an empty `seen`. -/
def uniqOf (collected : List RawCand) : List RawCand := dedupCands collected []

/-- The bulletin line `f"イベント名: {e['title']}, 期間: {e['period']}"`. -/
def candLine (e : RawCand) : String :=
  "イベント名: " ++ e.title ++ ", 期間: " ++ e.period

/-- The sale row built from a parsed candidate:
`{"name": f"{center_name}: {e['title']}", "start_date": s, "end_date": ed}`. -/
def mkSaleRow (centerName : String) (e : RawCand) (sd ed : String) : SaleRec :=
  ⟨centerName ++ ": " ++ e.title, sd, ed⟩

/-- The `for e in uniq` loop of `fetch_events_from_api` (lines 233-242):
every candidate contributes its bulletin line to `outlet_text`, and exactly
the candidates whose period parses contribute a row to `sales_rows`.
Returns the appended text lines and sale rows, in loop order. -/
def emitRows (centerName : String) : List RawCand → List String × List SaleRec
  | [] => ([], [])
  | e :: rest =>
    let acc := emitRows centerName rest
    match parse_period_to_dates e.period with
    | some (sd, ed) => (candLine e :: acc.1, mkSaleRow centerName e sd ed :: acc.2)
    | none => (candLine e :: acc.1, acc.2)

/-! ## The HTML/CSS fetch strategy (`HTMLCSSFetcher.fetch`)

The embedding starts where `soup.select(card_selector)` has produced the
list of card elements; each card is represented by its stripped full text
together with the stripped text of the first node matched by each
sub-selector (`select_one`), `none` standing for "no matching node". -/

/-- Association-list lookup (first binding wins). -/
def assocLookup {α : Type} (k : String) : List (String × α) → Option α
  | [] => none
  | (k2, v) :: rest => if k2 = k then some v else assocLookup k rest

/-- One card element produced by `soup.select`. -/
structure HtmlCard where
  /-- `card.get_text(strip=True)`. -/
  fullText : String
  /-- For each sub-selector, the stripped text of `card.select_one(sel)`;
  an absent key models `select_one` returning no node. -/
  subTexts : List (String × String)
deriving DecidableEq

/-- `card.select_one(sel).get_text(strip=True)`, `none` when no node. -/
def selectOneText (card : HtmlCard) (sel : String) : Option String :=
  assocLookup sel card.subTexts

/-- The strategy-specific keys of an `html_css` target configuration. -/
structure HtmlTarget where
  name : String
  title_selector : Option String
  period_selector : Option String
  static_period : Option String
  limit : Option Int
deriving DecidableEq

/-- `cards = cards[:limit]` when `limit` is a positive int. -/
def applyLimit (t : HtmlTarget) (cards : List HtmlCard) : List HtmlCard :=
  match t.limit with
  | some n => if 0 < n then cards.take n.toNat else cards
  | none => cards

/-- `target.get("static_period", "期間情報なし")`. -/
def effStaticPeriod (t : HtmlTarget) : String :=
  t.static_period.getD ("期間情報なし")

/-- The `title_text` computed for one card: via the configured sub-selector
when one is set (Python `None` when it matches no node), otherwise the
card's full text. -/
def titleTextOf (t : HtmlTarget) (card : HtmlCard) : Option String :=
  match t.title_selector with
  | some sel => selectOneText card sel
  | none => some card.fullText

/-- The `period_text` computed for one card: the text of the period
sub-selector when it is configured, matches a node and yields non-empty
text; the static default otherwise. -/
def periodTextOf (t : HtmlTarget) (card : HtmlCard) : String :=
  match t.period_selector with
  | some sel =>
    match selectOneText card sel with
    | some tx => if tx ≠ "" then tx else effStaticPeriod t
    | none => effStaticPeriod t
  | none => effStaticPeriod t

/-- The formatted line a card contributes, `none` when the card is skipped
(`if not title_text: continue`, which drops both a missing and an empty
title). -/
def htmlCardLine (t : HtmlTarget) (card : HtmlCard) : Option String :=
  match titleTextOf t card with
  | none => none
  | some tt =>
    if tt = "" then none
    else some ("イベント名: " ++ tt ++ ", 期間: " ++ periodTextOf t card ++ "\n")

/-- The card loop of `HTMLCSSFetcher.fetch`: accumulate `outlet_text` and the
`found` flag over the cards. -/
def htmlFetchLoop (t : HtmlTarget) : List HtmlCard → String → Bool → String × Bool
  | [], acc, found => (acc, found)
  | c :: rest, acc, found =>
    match htmlCardLine t c with
    | some line => htmlFetchLoop t rest (acc ++ line) true
    | none => htmlFetchLoop t rest acc found

/-- `HTMLCSSFetcher.fetch` from the card list on: header, one line per
surviving card, and the no-events message when no card survived. -/
def htmlCssFetch (t : HtmlTarget) (cards : List HtmlCard) : String :=
  let header := "--- " ++ t.name ++ "のイベント情報 ---\n"
  let r := htmlFetchLoop t (applyLimit t cards) ("") false
  if r.2 then header ++ r.1
  else header ++ r.1 ++ "現在、対象となるイベント情報はありません。\n"

/-! ## The LLM reply normalizer (`llm_parser._normalise_events`)

JSON values decoded by `json.loads` are modelled by `PyJson`; a decoded
`null` is Python `None`.  Number literals are modelled as integers (the
replies carry no floats).  `str()` of a decoded value is modelled by
`pyStr`; for nested containers the `repr`-based rendering approximates
Python by not escaping quote characters inside strings (no claim touches
that corner). -/

/-- A JSON value as decoded by `json.loads`. -/
inductive PyJson where
  | null : PyJson
  | bool : Bool → PyJson
  | int : Int → PyJson
  | str : String → PyJson
  | arr : List PyJson → PyJson
  | obj : List (String × PyJson) → PyJson

/-- The single-quote character, used by Python `repr` of strings. -/
def sq : String := String.mk [Char.ofNat 39]

mutual

/-- Python `repr` of a decoded JSON value. -/
def pyRepr : PyJson → String
  | .null => "None"
  | .bool true => "True"
  | .bool false => "False"
  | .int n => toString n
  | .str s => sq ++ s ++ sq
  | .arr items => "[" ++ pyReprList items ++ "]"
  | .obj fields => "\x7b" ++ pyReprFields fields ++ "\x7d"

/-- `repr` of list elements, comma separated. -/
def pyReprList : List PyJson → String
  | [] => ""
  | [x] => pyRepr x
  | x :: y :: rest => pyRepr x ++ ", " ++ pyReprList (y :: rest)

/-- `repr` of dict entries, comma separated. -/
def pyReprFields : List (String × PyJson) → String
  | [] => ""
  | [(k, v)] => sq ++ k ++ sq ++ ": " ++ pyRepr v
  | (k, v) :: e :: rest => sq ++ k ++ sq ++ ": " ++ pyRepr v ++ ", " ++ pyReprFields (e :: rest)

end

/-- Python `str()` of a decoded JSON value. -/
def pyStr : PyJson → String
  | .str s => s
  | v => pyRepr v

/-- Drop leading whitespace characters. -/
def dropLeadingWs : List Char → List Char
  | [] => []
  | c :: rest => if isPySpace c then dropLeadingWs rest else c :: rest

/-- Python `str.strip()`: remove leading and trailing whitespace. -/
def pyStrip (s : String) : String :=
  String.mk ((dropLeadingWs (dropLeadingWs s.data.reverse).reverse))

/-- The normalized event dataclass `ParsedEvent`. -/
structure ParsedEvent where
  name : String
  start_date : String
  end_date : String
deriving DecidableEq

/-- The errors `_normalise_events` itself can raise. -/
inductive LLMParserErr where
  | eventsNotAList : LLMParserErr
deriving DecidableEq

/-- One iteration of the `for raw in events` loop: `none` when the item is
skipped (not a dict, or a required field empty after `str(...).strip()`),
`some` with the trimmed fields otherwise. -/
def keepEvent : PyJson → Option ParsedEvent
  | .obj fields =>
    let name := pyStrip (pyStr ((assocLookup ("name") fields).getD (.str "")))
    let sd := pyStrip (pyStr ((assocLookup ("start_date") fields).getD (.str "")))
    let ed := pyStrip (pyStr ((assocLookup ("end_date") fields).getD (.str "")))
    if name = "" || sd = "" || ed = "" then none
    else some ⟨name, sd, ed⟩
  | _ => none

/-- `_normalise_events` of `llm_parser.py`: `events is None` (key absent or
JSON `null`) yields zero events; a non-list `events` raises; list items are
filtered by `keepEvent`. -/
def normalise_events (payload : List (String × PyJson)) :
    Except LLMParserErr (List ParsedEvent) :=
  match assocLookup ("events") payload with
  | none => .ok []
  | some .null => .ok []
  | some (.arr items) => .ok (items.filterMap keepEvent)
  | some _ => .error .eventsNotAList

/-! ## The calendar emitter (`create_ical_from_json`)

`ical_generator.py` and `generate_ical.py` contain the same emission loop
(they differ only in how a missing input file is reported).  `strptime`
with format `%Y-%m-%d` is modelled by `strptimeYmd` (four-digit year,
one-or-two-digit month and day, calendar validity as enforced by
`datetime`), `+ timedelta(days=1)` by `nextDay`, and the `icalendar`
serialization by explicit property lines in insertion order.  The emitter
never reads the clock; to make that checkable the wall-clock time is passed
in explicitly and shown not to influence the output. -/

/-- A `datetime.date`. -/
structure PyDate where
  year : Nat
  month : Nat
  day : Nat
deriving DecidableEq

/-- Gregorian leap year, as `calendar.isleap` / `datetime` use it. -/
def isLeapYear (y : Nat) : Bool := (y % 4 = 0 && y % 100 ≠ 0) || y % 400 = 0

/-- Days in a month of a given year. -/
def daysInMonth (y m : Nat) : Nat :=
  if m = 2 then (if isLeapYear y then 29 else 28)
  else if m = 4 || m = 6 || m = 9 || m = 11 then 30
  else 31

/-- The range checks `datetime.date` enforces on construction. -/
def validDate (d : PyDate) : Bool :=
  1 ≤ d.year && d.year ≤ 9999 && 1 ≤ d.month && d.month ≤ 12 &&
  1 ≤ d.day && d.day ≤ daysInMonth d.year d.month

/-- Numeric value of a digit string (most significant first). -/
def digitsToNat (cs : List Char) : Nat :=
  cs.foldl (fun a c => a * 10 + digitVal c) 0

/-- Split a character list on a separator character (like Python
`str.split(sep)` for a single-character separator). -/
def splitChar (sep : Char) : List Char → List (List Char)
  | [] => [[]]
  | c :: rest =>
    let r := splitChar sep rest
    if c = sep then [] :: r
    else
      match r with
      | [] => [[c]]
      | h :: t => (c :: h) :: t

/-- `datetime.strptime(s, "%Y-%m-%d").date()`: a four-digit year and
one-or-two-digit month and day joined by literal hyphens, consuming the
whole string, then the calendar validity check; `none` models the raised
`ValueError`. -/
def strptimeYmd (s : String) : Option PyDate :=
  match splitChar '-' s.data with
  | [ys, ms, ds] =>
    if ys.length = 4 && ys.all isDigitCh &&
       1 ≤ ms.length && ms.length ≤ 2 && ms.all isDigitCh &&
       1 ≤ ds.length && ds.length ≤ 2 && ds.all isDigitCh then
      if validDate ⟨digitsToNat ys, digitsToNat ms, digitsToNat ds⟩ then
        some ⟨digitsToNat ys, digitsToNat ms, digitsToNat ds⟩
      else none
    else none
  | _ => none

/-- `date + timedelta(days=1)`; `none` models the overflow past
`date.max = 9999-12-31`. -/
def nextDay (d : PyDate) : Option PyDate :=
  if d.day < daysInMonth d.year d.month then some ⟨d.year, d.month, d.day + 1⟩
  else if d.month < 12 then some ⟨d.year, d.month + 1, 1⟩
  else if d.year < 9999 then some ⟨d.year + 1, 1, 1⟩
  else none

/-- Whether a string is a valid ISO-8601 calendar date in the exact sense
the downstream emitter needs: `strptime("%Y-%m-%d")` accepts it. -/
def validISODateStr (s : String) : Bool := (strptimeYmd s).isSome

/-- One VEVENT as assembled by the emission loop. -/
structure VEvent where
  summary : String
  dtstart : PyDate
  dtend : PyDate
  uid : String
deriving DecidableEq

/-- The body of the `for sale in sales_data` loop: parse both dates, advance
the end date by one day, and set
`uid = f"{sale['start_date']}-{sale['name']}@premiumoutlets.example.com"`;
`none` models the exception aborting the run. -/
def mkVEvent (sale : SaleRec) : Option VEvent :=
  (strptimeYmd sale.start_date).bind (fun s =>
    (strptimeYmd sale.end_date).bind (fun e =>
      (nextDay e).map (fun e1 =>
        ⟨sale.name, s, e1,
         sale.start_date ++ "-" ++ sale.name ++ "@premiumoutlets.example.com"⟩)))

/-- `YYYYMMDD` rendering of an all-day `DATE` property value. -/
def fmtDateProp (d : PyDate) : String :=
  String.mk (pad4 d.year ++ pad2 d.month ++ pad2 d.day)

/-- Serialized property lines of one VEVENT, in insertion order. -/
def eventLines (ev : VEvent) : List String :=
  ["BEGIN:VEVENT",
   "SUMMARY:" ++ ev.summary,
   "DTSTART;VALUE=DATE:" ++ fmtDateProp ev.dtstart,
   "DTEND;VALUE=DATE:" ++ fmtDateProp ev.dtend,
   "UID:" ++ ev.uid,
   "END:VEVENT"]

/-- Serialized calendar lines: the four fixed calendar properties added by
`create_ical_from_json`, then the events, in order. -/
def calendarLines (events : List VEvent) : List String :=
  ["BEGIN:VCALENDAR",
   "PRODID:-//Premium Outlets Sale Calendar//example.com//",
   "VERSION:2.0",
   "X-WR-CALNAME:プレミアム・アウトレット セール情報",
   "X-WR-TIMEZONE:Asia/Tokyo"]
  ++ events.flatMap eventLines ++ ["END:VCALENDAR"]

/-- `create_ical_from_json` on an already-loaded sales list.  `wallClock` is
the time of the run; the source never reads the clock, and the theorems
show the output does not depend on it.  `none` models a `strptime` or
overflow exception aborting the run. -/
def create_ical_from_json (wallClock : Nat) (sales : List SaleRec) :
    Option (List String) :=
  let _ := wallClock
  (sales.mapM mkVEvent).map calendarLines

/-! ## Day arithmetic: an absolute day count

To express "exactly one day after" independently of the `nextDay`
implementation, dates are mapped to an absolute day ordinal. -/

/-- Number of leap years in `[1..n]`. -/
def leapsUpTo : Nat → Nat
  | 0 => 0
  | n + 1 => leapsUpTo n + (if isLeapYear (n + 1) then 1 else 0)

/-- Days in months `[1..m]` of year `y`. -/
def daysUpToMonth (y : Nat) : Nat → Nat
  | 0 => 0
  | m + 1 => daysUpToMonth y m + daysInMonth y (m + 1)

/-- Absolute day ordinal of a date (day 1 is 0001-01-01). -/
def dayOrdinal (d : PyDate) : Nat :=
  365 * (d.year - 1) + leapsUpTo (d.year - 1) + daysUpToMonth d.year (d.month - 1) + d.day

/-! ## Spec-side descriptions used in the claims -/

/-- Concatenation of emitted lines (the spec-side description of how
`outlet_text` accumulates). -/
def joinLines : List String → String
  | [] => ""
  | s :: rest => s ++ joinLines rest

/-- The reply item's field is either absent or carries a JSON string (the
schema the prompt demands); the keep/drop criterion of the claim is stated
over this domain. -/
def strOrAbsent (fields : List (String × PyJson)) (k : String) : Prop :=
  match assocLookup k fields with
  | none => True
  | some (.str _) => True
  | some _ => False

/-- The field is present, is a string, and is non-empty after stripping. -/
def presentNonempty (fields : List (String × PyJson)) (k : String) : Prop :=
  ∃ s, assocLookup k fields = some (.str s) ∧ pyStrip s ≠ ""

/-! ## Lemmas: decimal rendering respects the lexicographic order -/

theorem digitChar_lt_iff :
    ∀ a, a < 10 → ∀ b, b < 10 → (Nat.digitChar a < Nat.digitChar b ↔ a < b) := by
  decide

theorem digitChar_eq_iff :
    ∀ a, a < 10 → ∀ b, b < 10 → (Nat.digitChar a = Nat.digitChar b ↔ a = b) := by
  decide

theorem strLeB_cons_digit (x y : Nat) (xs ys : List Char) :
    strLeB (Nat.digitChar (x % 10) :: xs) (Nat.digitChar (y % 10) :: ys) = true ↔
      (x % 10 < y % 10 ∨ (x % 10 = y % 10 ∧ strLeB xs ys = true)) := by
  have hx : x % 10 < 10 := Nat.mod_lt _ (by omega)
  have hy : y % 10 < 10 := Nat.mod_lt _ (by omega)
  have hlt := digitChar_lt_iff _ hx _ hy
  have heq := digitChar_eq_iff _ hx _ hy
  simp only [strLeB]
  by_cases h1 : Nat.digitChar (x % 10) < Nat.digitChar (y % 10)
  · simp [h1, hlt.mp h1]
  · by_cases h2 : Nat.digitChar (x % 10) = Nat.digitChar (y % 10)
    · simp [h1, h2, heq.mp h2, fun h => h1 (hlt.mpr h)]
    · have hne : ¬ x % 10 = y % 10 := fun h => h2 (heq.mpr h)
      have hnlt : ¬ x % 10 < y % 10 := fun h => h1 (hlt.mpr h)
      simp [h1, h2, hne, hnlt]

theorem strLeB_cons_dash (xs ys : List Char) :
    strLeB ('-' :: xs) ('-' :: ys) = strLeB xs ys := by
  simp only [strLeB]
  rw [if_neg (by decide)]
  simp

theorem strLeB_nil : strLeB [] [] = true := rfl

theorem strLtB_cons_digit (x y : Nat) (xs ys : List Char) :
    strLtB (Nat.digitChar (x % 10) :: xs) (Nat.digitChar (y % 10) :: ys) = true ↔
      (x % 10 < y % 10 ∨ (x % 10 = y % 10 ∧ strLtB xs ys = true)) := by
  have hx : x % 10 < 10 := Nat.mod_lt _ (by omega)
  have hy : y % 10 < 10 := Nat.mod_lt _ (by omega)
  have hlt := digitChar_lt_iff _ hx _ hy
  have heq := digitChar_eq_iff _ hx _ hy
  simp only [strLtB]
  by_cases h1 : Nat.digitChar (x % 10) < Nat.digitChar (y % 10)
  · simp [h1, hlt.mp h1]
  · by_cases h2 : Nat.digitChar (x % 10) = Nat.digitChar (y % 10)
    · simp [h1, h2, heq.mp h2, fun h => h1 (hlt.mpr h)]
    · have hne : ¬ x % 10 = y % 10 := fun h => h2 (heq.mpr h)
      have hnlt : ¬ x % 10 < y % 10 := fun h => h1 (hlt.mpr h)
      simp [h1, h2, hne, hnlt]

theorem strLtB_nil : strLtB [] [] = false := rfl

/-- A strictly smaller prefix of equal length decides the comparison of the
concatenations. -/
theorem strLeB_append_of_ltB :
    ∀ (xs ys cs ds : List Char), xs.length = ys.length → strLtB xs ys = true →
      strLeB (xs ++ cs) (ys ++ ds) = true := by
  intro xs
  induction xs with
  | nil =>
    intro ys cs ds hlen hlt
    cases ys with
    | nil => simp [strLtB] at hlt
    | cons b bs => simp at hlen
  | cons a as ih =>
    intro ys cs ds hlen hlt
    cases ys with
    | nil => simp at hlen
    | cons b bs =>
      simp only [List.cons_append, strLeB]
      simp only [strLtB] at hlt
      by_cases hab : a < b
      · simp [hab]
      · rw [if_neg hab] at hlt
        by_cases heq : a = b
        · rw [if_pos heq] at hlt
          rw [if_neg hab, if_pos heq]
          exact ih bs cs ds (by simpa using hlen) hlt
        · rw [if_neg heq] at hlt
          exact absurd hlt (by simp)

/-- Equal prefixes cancel in the comparison of concatenations. -/
theorem strLeB_append_same :
    ∀ (xs cs ds : List Char), strLeB (xs ++ cs) (xs ++ ds) = strLeB cs ds := by
  intro xs
  induction xs with
  | nil => intro cs ds; rfl
  | cons a as ih =>
    intro cs ds
    simp only [List.cons_append, strLeB]
    rw [if_neg (lt_irrefl a)]
    simpa using ih cs ds

theorem pad4_ltB (a b : Nat) (ha : a < 10000) (hb : b < 10000) (h : a < b) :
    strLtB (pad4 a) (pad4 b) = true := by
  unfold pad4
  rw [strLtB_cons_digit, strLtB_cons_digit, strLtB_cons_digit, strLtB_cons_digit,
    strLtB_nil]
  have e1 : a = 1000 * (a / 1000 % 10) + 100 * (a / 100 % 10) + 10 * (a / 10 % 10) + a % 10 := by
    omega
  have e2 : b = 1000 * (b / 1000 % 10) + 100 * (b / 100 % 10) + 10 * (b / 10 % 10) + b % 10 := by
    omega
  omega

theorem pad2_ltB (a b : Nat) (ha : a < 100) (hb : b < 100) (h : a < b) :
    strLtB (pad2 a) (pad2 b) = true := by
  unfold pad2
  rw [strLtB_cons_digit, strLtB_cons_digit, strLtB_nil]
  have e1 : a = 10 * (a / 10 % 10) + a % 10 := by omega
  have e2 : b = 10 * (b / 10 % 10) + b % 10 := by omega
  omega

theorem pad2_leB (a b : Nat) (ha : a < 100) (hb : b < 100) (h : a ≤ b) :
    strLeB (pad2 a) (pad2 b) = true := by
  unfold pad2
  rw [strLeB_cons_digit, strLeB_cons_digit, strLeB_nil]
  simp only [eq_self_iff_true, and_true]
  have e1 : a = 10 * (a / 10 % 10) + a % 10 := by omega
  have e2 : b = 10 * (b / 10 % 10) + b % 10 := by omega
  omega

theorem pad4_length (a : Nat) : (pad4 a).length = 4 := rfl

theorem pad2_length (a : Nat) : (pad2 a).length = 2 := rfl

/-- Monotonicity of `norm`: within the widths the matcher can produce,
the rendered `YYYY-MM-DD` strings are lexicographically ordered exactly as
the `(year, month, day)` triples. -/
theorem norm_le_norm (y1 m1 d1 y2 m2 d2 : Nat)
    (hy1 : y1 < 10000) (hy2 : y2 < 10000) (hm1 : m1 < 100) (hm2 : m2 < 100)
    (hd1 : d1 < 100) (hd2 : d2 < 100)
    (h : y1 < y2 ∨ (y1 = y2 ∧ (m1 < m2 ∨ (m1 = m2 ∧ d1 ≤ d2)))) :
    strLe (norm y1 m1 d1) (norm y2 m2 d2) = true := by
  show strLeB ((pad4 y1 ++ '-' :: pad2 m1) ++ '-' :: pad2 d1)
      ((pad4 y2 ++ '-' :: pad2 m2) ++ '-' :: pad2 d2) = true
  rw [List.append_assoc, List.append_assoc]
  rcases h with hy | ⟨rfl, h⟩
  · exact strLeB_append_of_ltB _ _ _ _ (by rw [pad4_length, pad4_length])
      (pad4_ltB y1 y2 hy1 hy2 hy)
  · rw [strLeB_append_same]
    simp only [List.cons_append]
    rw [strLeB_cons_dash]
    rcases h with hm | ⟨rfl, hd⟩
    · exact strLeB_append_of_ltB _ _ _ _ (by rw [pad2_length, pad2_length])
        (pad2_ltB m1 m2 hm1 hm2 hm)
    · rw [strLeB_append_same, strLeB_cons_dash]
      exact pad2_leB d1 d2 hd1 hd2 hd

/-! ## Lemmas: the matchers only capture bounded group values -/

theorem digitVal_le (c : Char) (h : isDigitCh c = true) : digitVal c ≤ 9 := by
  unfold isDigitCh at h
  simp only [Bool.and_eq_true, decide_eq_true_eq] at h
  unfold digitVal
  omega

theorem take4Digits_lt {cs : List Char} {y : Nat} {r : List Char}
    (h : take4Digits cs = some (y, r)) : y < 10000 := by
  match cs, h with
  | a :: b :: c :: d :: rest, h =>
    unfold take4Digits at h
    by_cases hd : (isDigitCh a && isDigitCh b && isDigitCh c && isDigitCh d) = true
    · simp only [hd, if_true, Option.some.injEq, Prod.mk.injEq] at h
      simp only [Bool.and_eq_true] at hd
      have h1 := digitVal_le a hd.1.1.1
      have h2 := digitVal_le b hd.1.1.2
      have h3 := digitVal_le c hd.1.2
      have h4 := digitVal_le d hd.2
      omega
    · simp [hd] at h

theorem take12Digits_lt {cs : List Char} {v : Nat} {r : List Char}
    (h : (v, r) ∈ take12Digits cs) : v < 100 := by
  match cs, h with
  | a :: b :: rest, h =>
    unfold take12Digits at h
    by_cases ha : isDigitCh a = true
    · by_cases hb : isDigitCh b = true
      · simp only [ha, hb, if_true, List.mem_cons, List.mem_singleton,
          Prod.mk.injEq, List.not_mem_nil, or_false] at h
        have h1 := digitVal_le a ha
        have h2 := digitVal_le b hb
        rcases h with ⟨hv, -⟩ | ⟨hv, -⟩ <;> subst hv <;> omega
      · simp only [ha, hb, Bool.false_eq_true, if_true, if_false, List.mem_singleton,
          Prod.mk.injEq] at h
        have h1 := digitVal_le a ha
        have hv : v = digitVal a := h.1
        subst hv
        omega
    · simp [ha] at h
  | [a], h =>
    unfold take12Digits at h
    by_cases ha : isDigitCh a = true
    · simp only [ha, if_true, List.mem_singleton, Prod.mk.injEq] at h
      have h1 := digitVal_le a ha
      obtain ⟨hv, -⟩ := h
      subst hv
      omega
    · simp [ha] at h

/-- Bounds on one captured `(y, m, d)` triple of the ISO-like date
sub-pattern: four digits of year, at most two of month and day. -/
theorem dateAts_bounds {cs : List Char} {g : DateG} {r : List Char}
    (h : (g, r) ∈ dateAts cs) : g.y < 10000 ∧ g.m < 100 ∧ g.d < 100 := by
  unfold dateAts at h
  cases h4 : take4Digits cs with
  | none => rw [h4] at h; simp at h
  | some yr =>
    rw [h4] at h
    obtain ⟨y, r1⟩ := yr
    have hy := take4Digits_lt h4
    cases r1 with
    | nil => simp at h
    | cons s1 r2 =>
      by_cases hs1 : isDateSep s1 = true
      · simp only [hs1, if_true, List.mem_flatMap] at h
        obtain ⟨mp, hmp, h⟩ := h
        have hm := take12Digits_lt hmp
        obtain ⟨mv, r3⟩ := mp
        cases r3 with
        | nil => simp at h
        | cons s2 r4 =>
          by_cases hs2 : isDateSep s2 = true
          · simp only [hs2, if_true, List.mem_map] at h
            obtain ⟨dp, hdp, h⟩ := h
            have hdv := take12Digits_lt hdp
            cases h
            exact ⟨hy, hm, hdv⟩
          · simp [hs2] at h
      · simp [hs1] at h

theorem firstSome_eq_some {α β : Type} {l : List α} {f : α → Option β} {b : β}
    (h : firstSome l f = some b) : ∃ a ∈ l, f a = some b := by
  induction l with
  | nil => simp [firstSome] at h
  | cons x xs ih =>
    unfold firstSome at h
    cases hx : f x with
    | some v => rw [hx] at h; cases h; exact ⟨x, List.mem_cons_self x xs, hx⟩
    | none =>
      rw [hx] at h
      obtain ⟨a, ha, hfa⟩ := ih h
      exact ⟨a, List.mem_cons_of_mem x ha, hfa⟩

theorem matchR1At_bounds {cs : List Char} {g1 g2 : DateG}
    (h : matchR1At cs = some (g1, g2)) :
    (g1.y < 10000 ∧ g1.m < 100 ∧ g1.d < 100) ∧
    (g2.y < 10000 ∧ g2.m < 100 ∧ g2.d < 100) := by
  unfold matchR1At at h
  obtain ⟨p1, hp1, h⟩ := firstSome_eq_some h
  obtain ⟨r2, _, h⟩ := firstSome_eq_some h
  obtain ⟨r3, _, h⟩ := firstSome_eq_some h
  obtain ⟨p2, hp2, h⟩ := firstSome_eq_some h
  cases h
  exact ⟨dateAts_bounds (by exact hp1), dateAts_bounds (by exact hp2)⟩

theorem searchOpt_eq_some {α : Type} {p : List Char → Option α} {cs : List Char} {v : α}
    (h : searchOpt p cs = some v) : ∃ cs', p cs' = some v := by
  induction cs with
  | nil => exact ⟨[], h⟩
  | cons c rest ih =>
    unfold searchOpt at h
    cases hp : p (c :: rest) with
    | some w => rw [hp] at h; cases h; exact ⟨c :: rest, hp⟩
    | none => rw [hp] at h; exact ih h

theorem searchR1_bounds {cs : List Char} {g1 g2 : DateG}
    (h : searchR1 cs = some (g1, g2)) :
    (g1.y < 10000 ∧ g1.m < 100 ∧ g1.d < 100) ∧
    (g2.y < 10000 ∧ g2.m < 100 ∧ g2.d < 100) := by
  obtain ⟨cs', h'⟩ := searchOpt_eq_some h
  exact matchR1At_bounds h'

/-! ## Claim C1 -/

/-- Claim C1, counterexample: the claim "for every period string matching
`YYYY-MM-DD <sep> YYYY-MM-DD` the extractor returns `start <= end`" is
false: the reversed range `2025-09-15 ～ 2025-09-01` matches the full-range
form, yet `_parse_period_to_dates` returns the dates in textual order, so
`start > end` and the produced `NormalizedSaleEvent` would violate
`start_date <= end_date`. -/
theorem claim_C1_counterexample :
    parse_period_to_dates ("2025-09-15 ～ 2025-09-01") =
      some ("2025-09-15", "2025-09-01") ∧
    strLe ("2025-09-15") ("2025-09-01") = false :=
  ⟨rfl, rfl⟩

/-- Claim C1, amended: whenever the full-range pattern of `_parse_period_to_dates`
matches a period string, the extractor returns exactly the first matched
date as `start` and the second as `end`; `start <= end` holds (in the
lexicographic order of the ISO strings) whenever the first matched
`(year, month, day)` triple is less than or equal to the second — but not
unconditionally, as a reversed range is passed through unchanged. -/
theorem claim_C1_amended (p : String) (g1 g2 : DateG)
    (h : searchR1 p.data = some (g1, g2)) :
    parse_period_to_dates p = some (normG g1, normG g2) ∧
    ((g1.y < g2.y ∨ (g1.y = g2.y ∧ (g1.m < g2.m ∨ (g1.m = g2.m ∧ g1.d ≤ g2.d)))) →
      strLe (normG g1) (normG g2) = true) := by
  constructor
  · unfold parse_period_to_dates
    rw [h]
  · intro hord
    obtain ⟨⟨hy1, hm1, hd1⟩, hy2, hm2, hd2⟩ := searchR1_bounds h
    exact norm_le_norm g1.y g1.m g1.d g2.y g2.m g2.d hy1 hy2 hm1 hm2 hd1 hd2 hord

/-- Claim C1, witness: the amended claim at the specification's own example,
`2025-09-01 ～ 2025-09-15`. -/
theorem claim_C1_witness :
    parse_period_to_dates ("2025-09-01 ～ 2025-09-15") =
      some ("2025-09-01", "2025-09-15") ∧
    strLe ("2025-09-01") ("2025-09-15") = true := by
  have h := claim_C1_amended ("2025-09-01 ～ 2025-09-15") ⟨2025, 9, 1⟩ ⟨2025, 9, 15⟩
    (by rfl)
  exact ⟨h.1, h.2 (Or.inr ⟨rfl, Or.inr ⟨rfl, by norm_num⟩⟩)⟩

/-! ## Claim C8 -/

/-- Claim C8: when neither full-range pattern matches a period string (no
recognizable range) but the extractor still succeeds — i.e. a single date in
`YYYY[.,/,-]MM[.,/,-]DD` or `YYYY年MM月DD日` form was found — the returned
pair satisfies `start = end`. -/
theorem claim_C8 (p : String) (r : String × String)
    (h1 : searchR1 p.data = none) (h2 : searchR2 p.data = none)
    (hp : parse_period_to_dates p = some r) : r.1 = r.2 := by
  unfold parse_period_to_dates at hp
  rw [h1, h2] at hp
  cases h3 : searchR3 p.data with
  | some g => rw [h3] at hp; cases hp; rfl
  | none =>
    rw [h3] at hp
    cases h4 : searchR4 p.data with
    | some g => rw [h4] at hp; cases hp; rfl
    | none => rw [h4] at hp; cases hp

/-- Claim C8, witness: the specification's example `2025年9月1日` contains exactly
one recognizable date and no range, and yields
`("2025-09-01", "2025-09-01")`. -/
theorem claim_C8_witness :
    searchR1 ("2025年9月1日").data = none ∧
    searchR2 ("2025年9月1日").data = none ∧
    parse_period_to_dates ("2025年9月1日") = some ("2025-09-01", "2025-09-01") ∧
    (("2025-09-01", "2025-09-01") : String × String).1 =
      (("2025-09-01", "2025-09-01") : String × String).2 :=
  ⟨rfl, rfl, rfl, claim_C8 ("2025年9月1日") ("2025-09-01", "2025-09-01") rfl rfl rfl⟩

/-! ## Claim C10 -/

/-- Claim C10: the heuristic extractor performs no calendar-validity check: the
period string `2025-13-40` (month 13, day 40) is accepted by the
single-date pattern and returned as a zero-padded but calendar-invalid
date string, which `strptime("%Y-%m-%d")` downstream rejects — while a
genuine date of the same shape is accepted. -/
theorem claim_C10 :
    parse_period_to_dates ("2025-13-40") = some ("2025-13-40", "2025-13-40") ∧
    validISODateStr ("2025-13-40") = false ∧
    validISODateStr ("2025-09-01") = true :=
  ⟨rfl, rfl, rfl⟩

/-! ## Claim C6 -/

theorem emitRows_fst (cn : String) (l : List RawCand) :
    (emitRows cn l).1 = l.map candLine := by
  induction l with
  | nil => rfl
  | cons e rest ih =>
    cases hp : parse_period_to_dates e.period with
    | some p =>
      obtain ⟨sd, ed⟩ := p
      simp [emitRows, hp, ih]
    | none => simp [emitRows, hp, ih]

theorem emitRows_snd (cn : String) (l : List RawCand) :
    (emitRows cn l).2 = l.filterMap
      (fun x => (parse_period_to_dates x.period).map (fun q => mkSaleRow cn x q.1 q.2)) := by
  induction l with
  | nil => rfl
  | cons e rest ih =>
    cases hp : parse_period_to_dates e.period with
    | some p =>
      obtain ⟨sd, ed⟩ := p
      simp [emitRows, List.filterMap_cons, hp, ih]
    | none => simp [emitRows, List.filterMap_cons, hp, ih]

/-- Claim C6: a candidate whose period string matches none of the date patterns
contributes its formatted line to the bulletin text, contributes nothing to
`sales_rows` (the rows are exactly the parseable candidates' rows, and the
unparseable candidate maps to no row). -/
theorem claim_C6 (cn : String) (uniq : List RawCand) (e : RawCand)
    (he : e ∈ uniq) (hp : parse_period_to_dates e.period = none) :
    candLine e ∈ (emitRows cn uniq).1 ∧
    (emitRows cn uniq).2 = uniq.filterMap
      (fun x => (parse_period_to_dates x.period).map (fun q => mkSaleRow cn x q.1 q.2)) ∧
    (parse_period_to_dates e.period).map (fun q => mkSaleRow cn e q.1 q.2) = none := by
  refine ⟨?_, emitRows_snd cn uniq, ?_⟩
  · rw [emitRows_fst]
    exact List.mem_map_of_mem candLine he
  · rw [hp]
    rfl

/-- Claim C6, witness: `開催中` ("now open") has no recognizable date; its line is
in the bulletin, and the sales rows of a source consisting of only this
candidate are empty. -/
theorem claim_C6_witness :
    parse_period_to_dates ("開催中") = none ∧
    candLine ⟨"セール", "開催中"⟩ ∈ (emitRows ("御殿場") [⟨"セール", "開催中"⟩]).1 ∧
    (emitRows ("御殿場") [⟨"セール", "開催中"⟩]).2 = [] := by
  have h := claim_C6 ("御殿場") [⟨"セール", "開催中"⟩] ⟨"セール", "開催中"⟩
    (List.mem_singleton.mpr rfl) (by rfl)
  exact ⟨rfl, h.1, h.2.1.trans (by rfl)⟩

/-! ## Claim C7 -/

/-- Claim C7, counterexample: the deduplicated list does not contain every
distinct `(title, period)` pair of the input exactly once — a candidate
with an empty title is dropped entirely, so its pair appears once among the
collected candidates and zero times after deduplication. -/
theorem claim_C7_counterexample :
    uniqOf [⟨"", "2025-09-01"⟩] = [] ∧
    ([(⟨"", "2025-09-01"⟩ : RawCand)].countP
      (fun e => keyOf e == ("", "2025-09-01"))) = 1 :=
  ⟨rfl, rfl⟩

theorem dedupCands_countP (k : String × String) :
    ∀ (l : List RawCand) (seen : List (String × String)),
      (dedupCands l seen).countP (fun e => keyOf e == k) =
        if keySeen k seen = false ∧ k.1 ≠ "" ∧ k.2 ≠ "" ∧
            (l.any (fun e => keyOf e == k)) = true then 1 else 0 := by
  intro l
  induction l with
  | nil =>
    intro seen
    simp [dedupCands]
  | cons e rest ih =>
    intro seen
    unfold dedupCands
    by_cases hcond : (!keySeen (keyOf e) seen && e.title ≠ "" && e.period ≠ "") = true
    · rw [if_pos hcond]
      rw [List.countP_cons, ih (keyOf e :: seen)]
      simp only [Bool.and_eq_true, Bool.not_eq_true', decide_eq_true_eq] at hcond
      obtain ⟨⟨hseen, htitle⟩, hperiod⟩ := hcond
      by_cases hk : keyOf e = k
      · subst hk
        have h1 : keySeen (keyOf e) (keyOf e :: seen) = true := by
          simp [keySeen]
        have h2 : (keyOf e == keyOf e) = true := by simp
        have ht1 : (keyOf (e)).1 = e.title := rfl
        have ht2 : (keyOf (e)).2 = e.period := rfl
        simp [h1, h2, hseen, ht1, ht2, htitle, hperiod, List.any_cons]
      · have h2 : (keyOf e == k) = false := by
          simp only [beq_eq_false_iff_ne, ne_eq]
          exact hk
        have h3 : keySeen k (keyOf e :: seen) = keySeen k seen := by
          simp only [keySeen]
          rw [show (k == keyOf e) = false by
            simp only [beq_eq_false_iff_ne, ne_eq]; exact fun h => hk h.symm]
          simp
        rw [h2, h3]
        simp only [List.any_cons, h2, Bool.false_or]
        simp
    · rw [if_neg hcond, ih seen]
      simp only [Bool.and_eq_true, Bool.not_eq_true', decide_eq_true_eq, not_and] at hcond
      by_cases hk : keyOf e = k
      · subst hk
        have ht1 : (keyOf (e)).1 = e.title := rfl
        have ht2 : (keyOf (e)).2 = e.period := rfl
        by_cases hseen : keySeen (keyOf e) seen = false
        · have hbad : ¬ (e.title ≠ "" ∧ e.period ≠ "") := by
            intro htp
            exact hcond ⟨hseen, htp.1⟩ htp.2
          rw [if_neg, if_neg]
          · rw [ht1, ht2]
            intro hx
            exact hbad ⟨hx.2.1, hx.2.2.1⟩
          · rw [ht1, ht2]
            intro hx
            exact hbad ⟨hx.2.1, hx.2.2.1⟩
        · have hseen' : keySeen (keyOf e) seen = true := by
            cases h : keySeen (keyOf e) seen
            · exact absurd h hseen
            · rfl
          rw [if_neg (by rw [hseen']; intro hx; cases hx.1),
            if_neg (by rw [hseen']; intro hx; cases hx.1)]
      · have h2 : (keyOf e == k) = false := by
          simp only [beq_eq_false_iff_ne, ne_eq]
          exact hk
        simp only [List.any_cons, h2, Bool.false_or]

/-- Claim C7, amended: after the deduplication loop, each `(title, period)` pair
with non-empty title and non-empty period that occurs among the collected
candidates appears exactly once; pairs with an empty title or period are
dropped entirely (zero occurrences). -/
theorem claim_C7_amended (l : List RawCand) (k : String × String) :
    (uniqOf l).countP (fun e => keyOf e == k) =
      if k.1 ≠ "" ∧ k.2 ≠ "" ∧ (l.any (fun e => keyOf e == k)) = true
      then 1 else 0 := by
  rw [uniqOf, dedupCands_countP]
  simp [keySeen]

/-! ## Claim C2 -/

theorem htmlFetchLoop_eq (t : HtmlTarget) :
    ∀ (l : List HtmlCard) (acc : String) (found : Bool),
      htmlFetchLoop t l acc found =
        (acc ++ joinLines (l.filterMap (htmlCardLine t)),
         found || !(l.filterMap (htmlCardLine t)).isEmpty) := by
  intro l
  induction l with
  | nil =>
    intro acc found
    simp [htmlFetchLoop, joinLines, String.append_empty]
  | cons c rest ih =>
    intro acc found
    cases hl : htmlCardLine t c with
    | some line =>
      simp only [htmlFetchLoop, hl, ih, List.filterMap_cons, joinLines,
        List.isEmpty_cons, Bool.not_false, Bool.or_true, Bool.true_or]
      rw [String.append_assoc]
    | none =>
      simp only [htmlFetchLoop, hl, ih, List.filterMap_cons]

/-- Claim C2, amended: `HTMLCSSFetcher.fetch` emits the header followed by one
formatted line per selected card *whose extracted title is non-empty* (a
card whose configured title sub-selector matches nothing, or yields empty
text, is skipped — the full-text fallback applies only when no title
sub-selector is configured, as encoded in `titleTextOf`); the period falls
back to the static default exactly as encoded in `periodTextOf`; the cards
processed are limited to the configured positive maximum. -/
theorem claim_C2_amended (t : HtmlTarget) (cards : List HtmlCard) :
    (htmlCssFetch t cards =
      "--- " ++ t.name ++ "のイベント情報 ---\n" ++
        (if ((applyLimit t cards).filterMap (htmlCardLine t)).isEmpty then
          "現在、対象となるイベント情報はありません。\n"
        else joinLines ((applyLimit t cards).filterMap (htmlCardLine t)))) ∧
    (∀ n : Int, t.limit = some n → 0 < n → (applyLimit t cards).length ≤ n.toNat) := by
  constructor
  · show (if (htmlFetchLoop t (applyLimit t cards) ("") false).2 then
        ("--- " ++ t.name ++ "のイベント情報 ---\n") ++
          (htmlFetchLoop t (applyLimit t cards) ("") false).1
      else ("--- " ++ t.name ++ "のイベント情報 ---\n") ++
          (htmlFetchLoop t (applyLimit t cards) ("") false).1 ++
          "現在、対象となるイベント情報はありません。\n") = _
    rw [htmlFetchLoop_eq]
    cases hE : ((applyLimit t cards).filterMap (htmlCardLine t)).isEmpty
    · simp only [Bool.false_or, hE, Bool.not_false, if_true, if_false,
        String.empty_append, String.append_assoc]
      simp
    · have hnil : (applyLimit t cards).filterMap (htmlCardLine t) = [] :=
        List.isEmpty_iff.mp hE
      simp only [Bool.false_or, hE, Bool.not_true, if_false, if_true, hnil, joinLines,
        String.append_empty, String.append_assoc]
      simp
  · intro n hn hpos
    unfold applyLimit
    rw [hn]
    show (if 0 < n then cards.take n.toNat else cards).length ≤ n.toNat
    rw [if_pos hpos]
    exact List.length_take_le n.toNat cards

/-- Claim C2, witness: a three-card source with `limit = 2` — the second selected
card has no node matching the title sub-selector and produces no line (and
no full-text fallback), the third is cut off by the limit, and the first
follows the title/period extraction rules. -/
theorem claim_C2_witness :
    htmlCssFetch ⟨"御殿場", some ("h3"), some ("p"), none, some 2⟩
        [⟨"カード1", [("h3", "秋のセール"), ("p", "2025-09-01 ～ 2025-09-15")]⟩,
         ⟨"カード2", [("p", "2025-10-01")]⟩,
         ⟨"カード3", [("h3", "冬のセール")]⟩] =
      "--- 御殿場のイベント情報 ---\nイベント名: 秋のセール, 期間: 2025-09-01 ～ 2025-09-15\n" ∧
    (applyLimit ⟨"御殿場", some ("h3"), some ("p"), none, some 2⟩
        [⟨"カード1", [("h3", "秋のセール"), ("p", "2025-09-01 ～ 2025-09-15")]⟩,
         ⟨"カード2", [("p", "2025-10-01")]⟩,
         ⟨"カード3", [("h3", "冬のセール")]⟩]).length ≤ (2 : Int).toNat := by
  refine ⟨?_, ?_⟩
  · exact (claim_C2_amended _ _).1.trans (by rfl)
  · exact (claim_C2_amended _ _).2 2 rfl (by norm_num)

/-- Claim C2, counterexample: the claim "one formatted line is emitted per card"
(with a full-text fallback for the title) fails — a selected card whose
configured title sub-selector matches no node is skipped entirely: one card
selected, zero lines emitted, and the no-events message takes their place. -/
theorem claim_C2_counterexample :
    (applyLimit ⟨"X", some ("h2"), none, none, none⟩ [⟨"BIG SALE", []⟩]).length = 1 ∧
    (applyLimit ⟨"X", some ("h2"), none, none, none⟩
        [⟨"BIG SALE", []⟩]).filterMap (htmlCardLine ⟨"X", some ("h2"), none, none, none⟩)
      = [] ∧
    htmlCssFetch ⟨"X", some ("h2"), none, none, none⟩ [⟨"BIG SALE", []⟩] =
      "--- Xのイベント情報 ---\n現在、対象となるイベント情報はありません。\n" :=
  ⟨rfl, rfl, rfl⟩

/-! ## Claim C3 -/

/-- Claim C3: a reply whose `events` field is the empty array yields zero
normalized events and no `LLMParserError` (the later-revision policy in
`_normalise_events`). -/
theorem claim_C3 (payload : List (String × PyJson))
    (h : assocLookup ("events") payload = some (PyJson.arr [])) :
    normalise_events payload = .ok [] := by
  unfold normalise_events
  rw [h]
  rfl

/-- Claim C3, witness: the literal reply `{"events": []}`. -/
theorem claim_C3_witness :
    normalise_events [("events", PyJson.arr [])] = .ok [] :=
  claim_C3 _ rfl

/-! ## Claim C9 -/

theorem field_nonempty_iff (fields : List (String × PyJson)) (k : String)
    (h : strOrAbsent fields k) :
    (pyStrip (pyStr ((assocLookup k fields).getD (.str ""))) ≠ "") ↔
      presentNonempty fields k := by
  unfold strOrAbsent at h
  cases hk : assocLookup k fields with
  | none =>
    constructor
    · intro hne
      exact absurd rfl hne
    · rintro ⟨s, hs, -⟩
      rw [hk] at hs
      cases hs
  | some v =>
    cases v with
    | str s =>
      constructor
      · intro hne
        exact ⟨s, hk, hne⟩
      · rintro ⟨s2, hs2, hne⟩
        rw [hk] at hs2
        injection hs2 with hs2
        injection hs2 with hs2
        subst hs2
        exact hne
    | null => rw [hk] at h; exact (show False from h).elim
    | bool b => rw [hk] at h; exact (show False from h).elim
    | int n => rw [hk] at h; exact (show False from h).elim
    | arr l => rw [hk] at h; exact (show False from h).elim
    | obj l => rw [hk] at h; exact (show False from h).elim

/-- Claim C9: over reply items whose `name`, `start_date` and `end_date` fields
are strings when present, an item is kept iff all three are present and
non-empty after stripping; a non-dict item is dropped (never an error); and
for an array-valued `events` field the normalizer returns exactly the kept
items, raising nothing. -/
theorem claim_C9 (fields : List (String × PyJson))
    (h1 : strOrAbsent fields ("name")) (h2 : strOrAbsent fields ("start_date"))
    (h3 : strOrAbsent fields ("end_date")) :
    ((keepEvent (.obj fields)).isSome = true ↔
      (presentNonempty fields ("name") ∧ presentNonempty fields ("start_date") ∧
       presentNonempty fields ("end_date"))) ∧
    (∀ j : PyJson, (∀ fs, j ≠ .obj fs) → keepEvent j = none) ∧
    (∀ (payload : List (String × PyJson)) (items : List PyJson),
      assocLookup ("events") payload = some (.arr items) →
      normalise_events payload = .ok (items.filterMap keepEvent)) := by
  refine ⟨?_, ?_, ?_⟩
  · have hn := field_nonempty_iff fields ("name") h1
    have hs := field_nonempty_iff fields ("start_date") h2
    have he := field_nonempty_iff fields ("end_date") h3
    rw [← hn, ← hs, ← he]
    by_cases hA : pyStrip (pyStr ((assocLookup ("name") fields).getD (.str ""))) = "" <;>
      by_cases hB : pyStrip (pyStr ((assocLookup ("start_date") fields).getD (.str ""))) = "" <;>
        by_cases hC : pyStrip (pyStr ((assocLookup ("end_date") fields).getD (.str ""))) = "" <;>
          simp [keepEvent, hA, hB, hC]
  · intro j hj
    cases j with
    | obj fs => exact absurd rfl (hj fs)
    | null => rfl
    | bool b => rfl
    | int n => rfl
    | str s => rfl
    | arr l => rfl
  · intro payload items hp
    unfold normalise_events
    rw [hp]

/-- Claim C9, witness: a fully-populated string item is kept; the iff holds at a
concrete reply item. -/
theorem claim_C9_witness :
    (keepEvent (.obj [("name", PyJson.str ("御殿場: 秋のセール")),
        ("start_date", PyJson.str ("2025-09-01")),
        ("end_date", PyJson.str ("2025-09-15"))])).isSome = true ↔
      (presentNonempty [("name", PyJson.str ("御殿場: 秋のセール")),
          ("start_date", PyJson.str ("2025-09-01")),
          ("end_date", PyJson.str ("2025-09-15"))] ("name") ∧
       presentNonempty [("name", PyJson.str ("御殿場: 秋のセール")),
          ("start_date", PyJson.str ("2025-09-01")),
          ("end_date", PyJson.str ("2025-09-15"))] ("start_date") ∧
       presentNonempty [("name", PyJson.str ("御殿場: 秋のセール")),
          ("start_date", PyJson.str ("2025-09-01")),
          ("end_date", PyJson.str ("2025-09-15"))] ("end_date")) :=
  (claim_C9 _ (by trivial) (by trivial) (by trivial)).1

/-! ## Claim C4 -/

/-- The uid assembled by the emission loop depends only on the sale's
`start_date` and `name`. -/
theorem mkVEvent_uid {sale : SaleRec} {ev : VEvent} (h : mkVEvent sale = some ev) :
    ev.uid = sale.start_date ++ "-" ++ sale.name ++ "@premiumoutlets.example.com" := by
  simp only [mkVEvent, Option.bind_eq_some, Option.map_eq_some'] at h
  obtain ⟨sd, hsd, ed, hed, en, hen, hev⟩ := h
  subst hev
  rfl

/-- The event fields assembled by the emission loop: the start is the
parsed start date and the end is `nextDay` of the parsed end date. -/
theorem mkVEvent_fields {sale : SaleRec} {s e : PyDate} {ev : VEvent}
    (hs : strptimeYmd sale.start_date = some s)
    (he : strptimeYmd sale.end_date = some e)
    (h : mkVEvent sale = some ev) :
    ev.dtstart = s ∧ nextDay e = some ev.dtend := by
  simp only [mkVEvent, Option.bind_eq_some, Option.map_eq_some'] at h
  obtain ⟨sd, hsd, ed, hed, en, hen, hev⟩ := h
  rw [hs] at hsd
  injection hsd with hsd
  subst hsd
  rw [he] at hed
  injection hed with hed
  subst hed
  subst hev
  exact ⟨rfl, hen⟩

/-- Claim C4: calendar emission is deterministic — the output is independent of
the wall-clock time of the run, and the uid of an event depends only on the
sale's `start_date` and `name` (two sales agreeing on those, e.g. differing
in `end_date`, get identical uids). -/
theorem claim_C4 (t1 t2 : Nat) (sales : List SaleRec) :
    create_ical_from_json t1 sales = create_ical_from_json t2 sales ∧
    (∀ (s1 s2 : SaleRec) (e1 e2 : VEvent), mkVEvent s1 = some e1 →
      mkVEvent s2 = some e2 → s1.start_date = s2.start_date → s1.name = s2.name →
      e1.uid = e2.uid) := by
  refine ⟨rfl, ?_⟩
  intro s1 s2 e1 e2 h1 h2 hsd hnm
  rw [mkVEvent_uid h1, mkVEvent_uid h2, hsd, hnm]

/-- Claim C4, witness: two runs at different wall-clock times over one sale agree
byte-for-byte, and two sales differing only in `end_date` get the same uid. -/
theorem claim_C4_witness :
    create_ical_from_json 0 [⟨"A", "2025-09-01", "2025-09-15"⟩] =
      create_ical_from_json 1 [⟨"A", "2025-09-01", "2025-09-15"⟩] ∧
    (⟨"A", ⟨2025, 9, 1⟩, ⟨2025, 9, 16⟩,
        "2025-09-01-A@premiumoutlets.example.com"⟩ : VEvent).uid =
      (⟨"A", ⟨2025, 9, 1⟩, ⟨2025, 9, 21⟩,
        "2025-09-01-A@premiumoutlets.example.com"⟩ : VEvent).uid := by
  have h := claim_C4 0 1 [⟨"A", "2025-09-01", "2025-09-15"⟩]
  exact ⟨h.1, h.2 ⟨"A", "2025-09-01", "2025-09-15"⟩ ⟨"A", "2025-09-01", "2025-09-20"⟩
    _ _ (by rfl) (by rfl) rfl rfl⟩

/-! ## Claim C5 -/

theorem strptimeYmd_valid {s : String} {d : PyDate}
    (h : strptimeYmd s = some d) : validDate d = true := by
  unfold strptimeYmd at h
  split at h
  · split at h
    · split at h
      · injection h with h
        subst h
        assumption
      · cases h
    · cases h
  · cases h

/-- `+ timedelta(days=1)` advances the absolute day ordinal by exactly one
on every valid date. -/
theorem nextDay_ordinal {d d2 : PyDate} (hv : validDate d = true)
    (h : nextDay d = some d2) : dayOrdinal d2 = dayOrdinal d + 1 := by
  unfold validDate at hv
  simp only [Bool.and_eq_true, decide_eq_true_eq] at hv
  obtain ⟨⟨⟨⟨⟨hy1, hy2⟩, hm1⟩, hm2⟩, hd1⟩, hd2⟩ := hv
  unfold nextDay at h
  by_cases c1 : d.day < daysInMonth d.year d.month
  · rw [if_pos c1] at h
    injection h with h
    subst h
    show 365 * (d.year - 1) + leapsUpTo (d.year - 1) +
        daysUpToMonth d.year (d.month - 1) + (d.day + 1) =
      365 * (d.year - 1) + leapsUpTo (d.year - 1) +
        daysUpToMonth d.year (d.month - 1) + d.day + 1
    omega
  · rw [if_neg c1] at h
    by_cases c2 : d.month < 12
    · rw [if_pos c2] at h
      injection h with h
      subst h
      have hday : d.day = daysInMonth d.year d.month := by omega
      obtain ⟨k, hk⟩ : ∃ k, d.month = k + 1 := ⟨d.month - 1, by omega⟩
      show 365 * (d.year - 1) + leapsUpTo (d.year - 1) +
          daysUpToMonth d.year (d.month + 1 - 1) + 1 =
        365 * (d.year - 1) + leapsUpTo (d.year - 1) +
          daysUpToMonth d.year (d.month - 1) + d.day + 1
      rw [hk] at hday ⊢
      simp only [Nat.add_sub_cancel]
      have hstep : daysUpToMonth d.year (k + 1) =
          daysUpToMonth d.year k + daysInMonth d.year (k + 1) := rfl
      omega
    · rw [if_neg c2] at h
      by_cases c3 : d.year < 9999
      · rw [if_pos c3] at h
        injection h with h
        subst h
        have hm : d.month = 12 := by omega
        have hday : d.day = 31 := by
          rw [hm] at hd2 c1
          have : daysInMonth d.year 12 = 31 := rfl
          omega
        obtain ⟨k, hk⟩ : ∃ k, d.year = k + 1 := ⟨d.year - 1, by omega⟩
        show 365 * (d.year + 1 - 1) + leapsUpTo (d.year + 1 - 1) +
            daysUpToMonth (d.year + 1) (1 - 1) + 1 =
          365 * (d.year - 1) + leapsUpTo (d.year - 1) +
            daysUpToMonth d.year (d.month - 1) + d.day + 1
        rw [hm, hk, hday]
        simp only [Nat.add_sub_cancel]
        have hzero : daysUpToMonth (k + 1 + 1) 0 = 0 := rfl
        have hL : leapsUpTo (k + 1) =
            leapsUpTo k + (if isLeapYear (k + 1) then 1 else 0) := rfl
        have hsum : daysUpToMonth (k + 1) 11 =
            0 + daysInMonth (k + 1) 1 + daysInMonth (k + 1) 2 + daysInMonth (k + 1) 3 +
            daysInMonth (k + 1) 4 + daysInMonth (k + 1) 5 + daysInMonth (k + 1) 6 +
            daysInMonth (k + 1) 7 + daysInMonth (k + 1) 8 + daysInMonth (k + 1) 9 +
            daysInMonth (k + 1) 10 + daysInMonth (k + 1) 11 := rfl
        have f1 : daysInMonth (k + 1) 1 = 31 := rfl
        have f2 : daysInMonth (k + 1) 2 = if isLeapYear (k + 1) then 29 else 28 := rfl
        have f3 : daysInMonth (k + 1) 3 = 31 := rfl
        have f4 : daysInMonth (k + 1) 4 = 30 := rfl
        have f5 : daysInMonth (k + 1) 5 = 31 := rfl
        have f6 : daysInMonth (k + 1) 6 = 30 := rfl
        have f7 : daysInMonth (k + 1) 7 = 31 := rfl
        have f8 : daysInMonth (k + 1) 8 = 31 := rfl
        have f9 : daysInMonth (k + 1) 9 = 30 := rfl
        have f10 : daysInMonth (k + 1) 10 = 31 := rfl
        have f11 : daysInMonth (k + 1) 11 = 30 := rfl
        rw [f1, f2, f3, f4, f5, f6, f7, f8, f9, f10, f11] at hsum
        rw [hzero, hsum, hL]
        cases hLY : isLeapYear (k + 1) <;> simp [hLY] <;> omega
      · rw [if_neg c3] at h
        cases h

/-- Claim C5: for every sale whose dates parse, the emitted event starts on the
parsed `start_date` and its exclusive end (`DTEND`) is exactly one day — in
absolute day count — after the parsed `end_date`. -/
theorem claim_C5 (sale : SaleRec) (s e : PyDate) (ev : VEvent)
    (hs : strptimeYmd sale.start_date = some s)
    (he : strptimeYmd sale.end_date = some e)
    (hev : mkVEvent sale = some ev) :
    ev.dtstart = s ∧ dayOrdinal ev.dtend = dayOrdinal e + 1 := by
  obtain ⟨h1, h2⟩ := mkVEvent_fields hs he hev
  exact ⟨h1, nextDay_ordinal (strptimeYmd_valid he) h2⟩

/-- Claim C5, witness: the specification's example sale
`{"name": "Outlet X: Sale", "start_date": "2025-09-01", "end_date": "2025-09-15"}`
yields `DTSTART = 2025-09-01` and `DTEND = 2025-09-16`, one day after the
end date. -/
theorem claim_C5_witness :
    mkVEvent ⟨"Outlet X: Sale", "2025-09-01", "2025-09-15"⟩ =
      some ⟨"Outlet X: Sale", ⟨2025, 9, 1⟩, ⟨2025, 9, 16⟩,
        "2025-09-01-Outlet X: Sale@premiumoutlets.example.com"⟩ ∧
    (⟨"Outlet X: Sale", ⟨2025, 9, 1⟩, ⟨2025, 9, 16⟩,
        "2025-09-01-Outlet X: Sale@premiumoutlets.example.com"⟩ : VEvent).dtstart =
      ⟨2025, 9, 1⟩ ∧
    dayOrdinal (⟨"Outlet X: Sale", ⟨2025, 9, 1⟩, ⟨2025, 9, 16⟩,
        "2025-09-01-Outlet X: Sale@premiumoutlets.example.com"⟩ : VEvent).dtend =
      dayOrdinal ⟨2025, 9, 15⟩ + 1 := by
  have h := claim_C5 ⟨"Outlet X: Sale", "2025-09-01", "2025-09-15"⟩
    ⟨2025, 9, 1⟩ ⟨2025, 9, 15⟩
    ⟨"Outlet X: Sale", ⟨2025, 9, 1⟩, ⟨2025, 9, 16⟩,
      "2025-09-01-Outlet X: Sale@premiumoutlets.example.com"⟩
    (by rfl) (by rfl) (by rfl)
  exact ⟨by rfl, h.1, h.2⟩

end EventCalendar
